import Mathlib

/-!
Verification of the FLINT.Data_Preprocessing tile pipeline.

This file gives a shallow embedding of the tile-grid math in
`flintdata/flinttile/__init__.py` and of the claim-relevant control flow of
`flintdata/scripts/optimize_rasters.py` and
`flintdata/scripts/optimize_rasterstack.py`, and proves the stated
properties about them.

Longitudes and latitudes are modelled as exact rationals; the Python source
uses IEEE doubles, but every claim below concerns values (integer degrees,
small decimal fractions) on which double arithmetic is exact, so the
rational model is faithful.
-/

namespace FlintData

/-! ## flintdata/flinttile/__init__.py : tile grid math -/

/-- An XY flint tile (`Tile = namedtuple('Tile', ['x', 'y'])`). -/
structure Tile where
  x : ℤ
  y : ℤ
deriving DecidableEq

/-- A longitude/latitude pair (`LngLat`). -/
structure LngLat where
  lng : ℚ
  lat : ℚ
deriving DecidableEq

/-- A geographic bounding box (`LngLatBbox`). -/
structure LngLatBbox where
  west : ℚ
  south : ℚ
  east : ℚ
  north : ℚ
deriving DecidableEq

/-- `index(tile)` from flinttile lines 70-74: `ytile * 360 + xtile`. -/
def index (t : Tile) : ℤ := t.y * 360 + t.x

/-- `ul(tile)` from flinttile lines 76-100:
`lon_deg = xtile - 180.0`, `lat_deg = -(ytile - 90.0)`. -/
def ul (t : Tile) : LngLat :=
  ⟨(t.x : ℚ) - 180, -((t.y : ℚ) - 90)⟩

/-- `bounds(tile)` from flinttile lines 103-120: west/north from the tile's
own upper-left corner, east/south from the corner of `(x+1, y+1)`. -/
def bounds (t : Tile) : LngLatBbox :=
  let a := ul t
  let b := ul ⟨t.x + 1, t.y + 1⟩
  ⟨a.lng, b.lat, b.lng, a.lat⟩

/-- `tile(lng, lat)` from flinttile lines 135-150 (the "locate" operation):
`xtile = int(floor(lng + 180.0))`, `ytile = int(floor(lat - 90.0)) * -1`. -/
def tile (lng lat : ℚ) : Tile :=
  ⟨⌊lng + 180⌋, -⌊lat - 90⌋⟩

/-- Fuel-driven enumeration `[a, a+1, ..., a+n-1]`, the worker for
`intRange`. -/
def intRangeAux (a : ℤ) : ℕ → List ℤ
  | 0 => []
  | n + 1 => a :: intRangeAux (a + 1) n

/-- Python `range(a, b)` over integers, as the list `[a, a+1, ..., b-1]`
(empty when `b ≤ a`). -/
def intRange (a b : ℤ) : List ℤ := intRangeAux a (b - a).toNat

/-- The per-bounding-box body of `tiles` (flinttile lines 172-190): clamp the
box to [-180,180]x[-90,90], locate the lower-left and upper-right tiles,
clamp negative `ll.x`/`ur.y` to 0, and enumerate the nested half-open
ranges (`i` outer, `j` inner). -/
def tilesOne (w s e n : ℚ) : List Tile :=
  let w2 := max (-180 : ℚ) w
  let s2 := max (-90 : ℚ) s
  let e2 := min (180 : ℚ) e
  let n2 := min (90 : ℚ) n
  let ll := tile w2 s2
  let ur := tile e2 n2
  let llx := if ll.x < 0 then 0 else ll.x
  let ury := if ur.y < 0 then 0 else ur.y
  (intRange llx ur.x).flatMap (fun i => (intRange ury ll.y).map (fun j => ⟨i, j⟩))

/-- `tiles(west, south, east, north)` from flinttile lines 154-190: if
`west > east` split at the antimeridian into `(-180, s, e, n)` and
`(w, s, 180, n)`, then run the per-box body over each box in order. -/
def tiles (w s e n : ℚ) : List Tile :=
  let bboxes : List (ℚ × ℚ × ℚ × ℚ) :=
    if w > e then [(-180, s, e, n), (w, s, 180, n)] else [(w, s, e, n)]
  bboxes.flatMap (fun b => tilesOne b.1 b.2.1 b.2.2.1 b.2.2.2)

/-! ### Helper lemmas about the enumeration -/

lemma mem_intRangeAux (a k : ℤ) (n : ℕ) :
    k ∈ intRangeAux a n ↔ a ≤ k ∧ k < a + n := by
  induction n generalizing a with
  | zero => simp [intRangeAux]
  | succ m ih =>
    simp only [intRangeAux, List.mem_cons, ih]
    constructor
    · rintro (rfl | ⟨h1, h2⟩) <;> omega
    · rintro ⟨h1, h2⟩
      by_cases hk : k = a
      · exact Or.inl hk
      · exact Or.inr ⟨by omega, by omega⟩

lemma mem_intRange (a b k : ℤ) : k ∈ intRange a b ↔ a ≤ k ∧ k < b := by
  rw [intRange, mem_intRangeAux]
  omega

lemma mem_tilesOne (w s e n : ℚ) (t : Tile) :
    t ∈ tilesOne w s e n ↔
      ((if (tile (max (-180 : ℚ) w) (max (-90 : ℚ) s)).x < 0 then 0
          else (tile (max (-180 : ℚ) w) (max (-90 : ℚ) s)).x) ≤ t.x
        ∧ t.x < (tile (min (180 : ℚ) e) (min (90 : ℚ) n)).x
        ∧ (if (tile (min (180 : ℚ) e) (min (90 : ℚ) n)).y < 0 then 0
            else (tile (min (180 : ℚ) e) (min (90 : ℚ) n)).y) ≤ t.y
        ∧ t.y < (tile (max (-180 : ℚ) w) (max (-90 : ℚ) s)).y) := by
  obtain ⟨tx, ty⟩ := t
  simp only [tilesOne, List.mem_flatMap, List.mem_map, mem_intRange, Tile.mk.injEq]
  constructor
  · rintro ⟨i, hi, j, hj, rfl, rfl⟩
    exact ⟨hi.1, hi.2, hj.1, hj.2⟩
  · rintro ⟨h1, h2, h3, h4⟩
    exact ⟨tx, ⟨h1, h2⟩, ty, ⟨h3, h4⟩, rfl, rfl⟩

lemma tiles_eq_of_le (w s e n : ℚ) (hwe : w ≤ e) :
    tiles w s e n = tilesOne w s e n := by
  simp [tiles, if_neg (not_lt.mpr hwe)]

lemma tiles_eq_of_gt (w s e n : ℚ) (hwe : e < w) :
    tiles w s e n = tilesOne (-180) s e n ++ tilesOne w s 180 n := by
  simp [tiles, if_pos hwe]

/-- C4: applying `tile` (locate) to the longitude/latitude returned by `ul`
(upperLeft) of any tile with integer coordinates reconstructs that tile
exactly. -/
theorem tile_ul_roundtrip (t : Tile) : tile (ul t).lng (ul t).lat = t := by
  obtain ⟨x, y⟩ := t
  simp only [tile, ul, Tile.mk.injEq]
  constructor
  · have h : ((x : ℚ) - 180) + 180 = ((x : ℤ) : ℚ) := by ring
    rw [h, Int.floor_intCast]
  · have h : (-(((y : ℚ)) - 90)) - 90 = ((-y : ℤ) : ℚ) := by push_cast; ring
    rw [h, Int.floor_intCast, neg_neg]

/-- C7: `index` computes `y*360 + x` and is injective over the full-globe
grid `{Tile(x,y) : 0 ≤ x < 360, 0 ≤ y < 180}`; in particular
`index(Tile(0,0)) = 0`, `index(Tile(1,0)) = 1`, `index(Tile(0,1)) = 360`. -/
theorem index_injective_on_grid (x1 y1 x2 y2 : ℤ)
    (hx1 : 0 ≤ x1) (hx1u : x1 < 360) (_hy1 : 0 ≤ y1) (_hy1u : y1 < 180)
    (hx2 : 0 ≤ x2) (hx2u : x2 < 360) (_hy2 : 0 ≤ y2) (_hy2u : y2 < 180)
    (heq : index ⟨x1, y1⟩ = index ⟨x2, y2⟩) :
    ((⟨x1, y1⟩ : Tile) = ⟨x2, y2⟩ ∧ (∀ t : Tile, index t = t.y * 360 + t.x)
      ∧ index ⟨0, 0⟩ = 0 ∧ index ⟨1, 0⟩ = 1 ∧ index ⟨0, 1⟩ = 360) := by
  refine ⟨?_, fun t => rfl, by decide, by decide, by decide⟩
  simp only [index] at heq
  simp only [Tile.mk.injEq]
  omega

/-- Witness for C7: the injectivity theorem applied at the concrete tile
(5, 3) of the grid. -/
theorem index_injective_on_grid_witness :
    ((⟨5, 3⟩ : Tile) = ⟨5, 3⟩ ∧ (∀ t : Tile, index t = t.y * 360 + t.x)
      ∧ index ⟨0, 0⟩ = 0 ∧ index ⟨1, 0⟩ = 1 ∧ index ⟨0, 1⟩ = 360) :=
  index_injective_on_grid 5 3 5 3 (by decide) (by decide) (by decide) (by decide)
    (by decide) (by decide) (by decide) (by decide) rfl

/-- C1: for a non-wrapping box (`west ≤ east`), `tiles` clamps the box to
[-180,180]x[-90,90], locates `ll` and `ur`, clamps negative `ll.x`/`ur.y`
to 0, and yields exactly the tiles `Tile(i, j)` with `i ∈ [llx, ur.x)` and
`j ∈ [ury, ll.y)`, in that nested iteration order (both ranges half-open,
excluding column `ur.x` and row `ll.y`). -/
theorem tiles_nonwrapping (w s e n : ℚ) (t : Tile) (ll ur : Tile) (llx ury : ℤ)
    (hwe : w ≤ e)
    (hll : ll = tile (max (-180) w) (max (-90) s))
    (hur : ur = tile (min 180 e) (min 90 n))
    (hllx : llx = if ll.x < 0 then 0 else ll.x)
    (hury : ury = if ur.y < 0 then 0 else ur.y) :
    tiles w s e n
        = (intRange llx ur.x).flatMap (fun i => (intRange ury ll.y).map (fun j => ⟨i, j⟩))
      ∧ (t ∈ tiles w s e n ↔ llx ≤ t.x ∧ t.x < ur.x ∧ ury ≤ t.y ∧ t.y < ll.y) := by
  subst hll hur hllx hury
  rw [tiles_eq_of_le w s e n hwe]
  exact ⟨rfl, mem_tilesOne w s e n t⟩

/-- Witness for C1: the box (-10, -10, 10, 10) from the spec, whose
enumeration runs over columns [170, 190) and rows [80, 100); the tile
(175, 85) lies in it. -/
theorem tiles_nonwrapping_witness :
    tiles (-10) (-10) 10 10
        = (intRange 170 190).flatMap (fun i => (intRange 80 100).map (fun j => ⟨i, j⟩))
      ∧ ((⟨175, 85⟩ : Tile) ∈ tiles (-10) (-10) 10 10 ↔
          (170 : ℤ) ≤ 175 ∧ (175 : ℤ) < 190 ∧ (80 : ℤ) ≤ 85 ∧ (85 : ℤ) < 100) :=
  tiles_nonwrapping (-10) (-10) 10 10 ⟨175, 85⟩ ⟨170, 100⟩ ⟨190, 80⟩ 170 80
    (by norm_num) (by norm_num [tile, max_def, min_def, Tile.mk.injEq])
    (by norm_num [tile, max_def, min_def, Tile.mk.injEq]) rfl rfl

/-- C2: for a wrapping box (`west > east`), `tiles` yields exactly the
per-box enumeration of the sub-box (-180, s, e, n) followed by that of the
sub-box (w, s, 180, n), each processed independently, the first sub-box's
tiles entirely before the second's. -/
theorem tiles_antimeridian_split (w s e n : ℚ) (t : Tile) (hwe : e < w) :
    tiles w s e n = tilesOne (-180) s e n ++ tilesOne w s 180 n
      ∧ (t ∈ tiles w s e n ↔ t ∈ tilesOne (-180) s e n ∨ t ∈ tilesOne w s 180 n) := by
  refine ⟨tiles_eq_of_gt w s e n hwe, ?_⟩
  rw [tiles_eq_of_gt w s e n hwe, List.mem_append]

/-- Witness for C2: the antimeridian-crossing box (170, -10, -170, 10) from
the spec; the tile (0, 80) comes from the first sub-box. -/
theorem tiles_antimeridian_split_witness :
    tiles 170 (-10) (-170) 10 = tilesOne (-180) (-10) (-170) 10 ++ tilesOne 170 (-10) 180 10
      ∧ ((⟨0, 80⟩ : Tile) ∈ tiles 170 (-10) (-170) 10 ↔
          (⟨0, 80⟩ : Tile) ∈ tilesOne (-180) (-10) (-170) 10
            ∨ (⟨0, 80⟩ : Tile) ∈ tilesOne 170 (-10) 180 10) :=
  tiles_antimeridian_split 170 (-10) (-170) 10 ⟨0, 80⟩ (by norm_num)

/-- Any tile produced by the per-box enumeration lies inside the 360x180
full-globe grid: the east/north clamps bound `ur.x` by 360 and `ll.y` by
180, and the zero clamps bound the lower ends. -/
lemma tilesOne_subset_grid (w s e n : ℚ) (t : Tile) (h : t ∈ tilesOne w s e n) :
    0 ≤ t.x ∧ t.x ≤ 359 ∧ 0 ≤ t.y ∧ t.y ≤ 179 := by
  rw [mem_tilesOne] at h
  obtain ⟨h1, h2, h3, h4⟩ := h
  have hx0 : (0 : ℤ) ≤ if (tile (max (-180 : ℚ) w) (max (-90 : ℚ) s)).x < 0 then 0
      else (tile (max (-180 : ℚ) w) (max (-90 : ℚ) s)).x := by
    split <;> omega
  have hy0 : (0 : ℤ) ≤ if (tile (min (180 : ℚ) e) (min (90 : ℚ) n)).y < 0 then 0
      else (tile (min (180 : ℚ) e) (min (90 : ℚ) n)).y := by
    split <;> omega
  have hxu : (tile (min (180 : ℚ) e) (min (90 : ℚ) n)).x ≤ 360 := by
    have he : min (180 : ℚ) e + 180 ≤ 360 := by
      have := min_le_left (180 : ℚ) e
      linarith
    calc (tile (min (180 : ℚ) e) (min (90 : ℚ) n)).x
        = ⌊min (180 : ℚ) e + 180⌋ := rfl
      _ ≤ ⌊(360 : ℚ)⌋ := Int.floor_le_floor he
      _ = 360 := by norm_num
  have hyu : (tile (max (-180 : ℚ) w) (max (-90 : ℚ) s)).y ≤ 180 := by
    have hs : (-180 : ℚ) ≤ max (-90 : ℚ) s - 90 := by
      have := le_max_left (-90 : ℚ) s
      linarith
    have hfl : (-180 : ℤ) ≤ ⌊max (-90 : ℚ) s - 90⌋ := by
      calc (-180 : ℤ) = ⌊(-180 : ℚ)⌋ := by norm_num
        _ ≤ ⌊max (-90 : ℚ) s - 90⌋ := Int.floor_le_floor hs
    show -⌊max (-90 : ℚ) s - 90⌋ ≤ 180
    omega
  omega

/-- C9 (invariant): every tile yielded by `tiles` for any input box satisfies
`0 ≤ x ≤ 359` and `0 ≤ y ≤ 179`, so its `index` lies in `[0, 64800)`. -/
theorem tiles_index_in_range (w s e n : ℚ) (t : Tile) (h : t ∈ tiles w s e n) :
    0 ≤ t.x ∧ t.x ≤ 359 ∧ 0 ≤ t.y ∧ t.y ≤ 179 ∧ 0 ≤ index t ∧ index t < 64800 := by
  simp only [tiles, List.mem_flatMap] at h
  obtain ⟨b, _, ht⟩ := h
  obtain ⟨g1, g2, g3, g4⟩ := tilesOne_subset_grid b.1 b.2.1 b.2.2.1 b.2.2.2 t ht
  refine ⟨g1, g2, g3, g4, ?_, ?_⟩ <;> simp only [index] <;> omega

/-- Witness for C9: the tile (180, 89) yielded for the box (0, 0, 1, 1) is
inside the grid and its index is below 64800. -/
theorem tiles_index_in_range_witness :
    0 ≤ (⟨180, 89⟩ : Tile).x ∧ (⟨180, 89⟩ : Tile).x ≤ 359
      ∧ 0 ≤ (⟨180, 89⟩ : Tile).y ∧ (⟨180, 89⟩ : Tile).y ≤ 179
      ∧ 0 ≤ index ⟨180, 89⟩ ∧ index ⟨180, 89⟩ < 64800 :=
  tiles_index_in_range 0 0 1 1 ⟨180, 89⟩ (by
    rw [tiles_eq_of_le 0 0 1 1 (by norm_num), mem_tilesOne]
    norm_num [tile, max_def, min_def])

/-! ### `feature` (flinttile lines 193-246) -/

/-- Round-half-to-even on rationals, the rounding rule of Python's built-in
`round`. (Python rounds the IEEE double nearest to the value; all claims
using this are insensitive to the difference.) -/
def roundHalfEven (q : ℚ) : ℤ :=
  let f := ⌊q⌋
  let r := q - (f : ℚ)
  if r < 1 / 2 then f
  else if 1 / 2 < r then f + 1
  else if f % 2 = 0 then f else f + 1

/-- Python `round(q, p)` for a nonnegative number of decimal places. -/
def pyRound (q : ℚ) (p : ℕ) : ℚ := (roundHalfEven (q * 10 ^ p) : ℚ) / 10 ^ p

/-- The corner computation of `feature` (flinttile lines 215-223): start
from `bounds(tile)`, widen by `buffer` when it is truthy (not None and not
0), then round each coordinate when `precision` is truthy and nonnegative
(`if precision and precision >= 0`, so precision 0 is skipped). -/
def featureCorners (t : Tile) (buffer : Option ℚ) (precision : Option ℤ) :
    ℚ × ℚ × ℚ × ℚ :=
  let b := bounds t
  let c1 : ℚ × ℚ × ℚ × ℚ :=
    match buffer with
    | some buf =>
        if buf ≠ 0 then (b.west - buf, b.south - buf, b.east + buf, b.north + buf)
        else (b.west, b.south, b.east, b.north)
    | none => (b.west, b.south, b.east, b.north)
  match precision with
  | some p =>
      if p ≠ 0 ∧ 0 ≤ p then
        (pyRound c1.1 p.toNat, pyRound c1.2.1 p.toNat,
          pyRound c1.2.2.1 p.toNat, pyRound c1.2.2.2 p.toNat)
      else c1
  | none => c1

/-- The geometry-carrying part of the GeoJSON dict built by `feature`
(flinttile lines 224-241): the bbox list, the polygon's single ring, and
the default id `index(tile)`. The `properties` dict and the `fid`/`props`
overrides only alter metadata fields and are not modelled. -/
structure Feature where
  bbox : List ℚ
  ring : List (ℚ × ℚ)
  fid : ℤ
deriving DecidableEq

/-- `feature(tile, buffer, precision)` from flinttile lines 193-246,
restricted to its geometry output. -/
def feature (t : Tile) (buffer : Option ℚ) (precision : Option ℤ) : Feature :=
  let c := featureCorners t buffer precision
  { bbox := [min c.1 c.2.2.1, min c.2.1 c.2.2.2, max c.1 c.2.2.1, max c.2.1 c.2.2.2]
    ring := [(c.1, c.2.1), (c.1, c.2.2.2), (c.2.2.1, c.2.2.2), (c.2.2.1, c.2.1), (c.1, c.2.1)]
    fid := index t }

/-- C8: for every tile and every combination of buffer and precision,
`feature` returns a ring of exactly 5 points whose first point equals its
last, and a 4-entry bbox `[minX, minY, maxX, maxY]` with `minX ≤ maxX` and
`minY ≤ maxY`, even when buffering or rounding inverted an edge. -/
theorem feature_ring_closed_bbox_sorted (t : Tile) (buffer : Option ℚ)
    (precision : Option ℤ) :
    ∃ p1 p2 p3 p4 : ℚ × ℚ, ∃ x0 x1 x2 x3 : ℚ,
      (feature t buffer precision).ring = [p1, p2, p3, p4, p1]
        ∧ (feature t buffer precision).bbox = [x0, x1, x2, x3]
        ∧ x0 ≤ x2 ∧ x1 ≤ x3 := by
  refine ⟨_, _, _, _, _, _, _, _, rfl, rfl, ?_, ?_⟩
  · exact le_trans (min_le_left _ _) (le_max_left _ _)
  · exact le_trans (min_le_left _ _) (le_max_left _ _)

/-! ## scripts/optimize_rasters.py and scripts/optimize_rasterstack.py -/

/-- `IN_MEMORY_THRESHOLD = 16000 * 16000` (both scripts, line 35/36). -/
def IN_MEMORY_THRESHOLD : ℕ := 16000 * 16000

/-- An affine transform `(a, b, c, d, e, f)` in the row-major convention of
the `affine` package. -/
structure Affine where
  a : ℚ
  b : ℚ
  c : ℚ
  d : ℚ
  e : ℚ
  f : ℚ
deriving DecidableEq

/-- `rasterio.transform.from_bounds(west, south, east, north, width,
height)`: pixel sizes `(east-west)/width` and `(south-north)/height`,
anchored at the north-west corner. -/
def from_bounds (w s e n : ℚ) (width height : ℤ) : Affine :=
  ⟨(e - w) / width, 0, w, 0, (s - n) / height, n⟩

/-- The external warping engine's coordinate-transformation capabilities
(`rasterio.warp.transform`, applied pointwise to each corner, and
`rasterio.warp.transform_bounds`), abstracted over the pair of CRS names. -/
structure WarpEngine where
  transformPt : String → String → ℚ → ℚ → ℚ × ℚ
  transformBounds : String → String → ℚ → ℚ → ℚ → ℚ → ℚ × ℚ × ℚ × ℚ

/-- The engine calls `_calculate_default_transform` can make, in order. -/
inductive EngCall
  | transformPts
  | transformBounds
deriving DecidableEq

namespace OptimizeRasters

/-- `_calculate_default_transform` from optimize_rasters.py lines 84-137,
with the engine calls it performs logged in order. The variadic `*bounds`
is a list; the source raises `ValueError('Bounds must contain 4 values')`
whenever it does not hold exactly 4 values, before any engine call. -/
def _calculate_default_transform (eng : WarpEngine) (src_crs target_crs : String)
    (width height : ℤ) (boundsArgs : List ℚ) :
    List EngCall × Except String (Affine × ℤ × ℤ) :=
  match boundsArgs with
  | [bw, bs, be, bn] =>
    let sw := eng.transformPt src_crs target_crs bw bs
    let nw := eng.transformPt src_crs target_crs bw bn
    let se := eng.transformPt src_crs target_crs be bs
    let ne := eng.transformPt src_crs target_crs be bn
    let cornerW := max sw.1 nw.1
    let cornerS := max sw.2 se.2
    let cornerE := min se.1 ne.1
    let cornerN := min nw.2 ne.2
    let ct := from_bounds cornerW cornerS cornerE cornerN width height
    let db := eng.transformBounds src_crs target_crs bw bs be bn
    let dw := ⌈(db.2.2.1 - db.1) / ct.a⌉
    let dh := ⌈(db.2.1 - db.2.2.2) / ct.e⌉
    ([EngCall.transformPts, EngCall.transformBounds],
      Except.ok (from_bounds db.1 db.2.1 db.2.2.1 db.2.2.2 dw dh, dw, dh))
  | _ => ([], Except.error "Bounds must contain 4 values")

/-- The in-memory decision the source actually makes (optimize_rasters.py
line 454): `in_memory = vrt.width * vrt.height < IN_MEMORY_THRESHOLD`. The
assignment is unconditional, so the CLI in-memory override (the first
parameter here) is ignored. -/
def chooseInMemory (in_memory : Option Bool) (vrtWidth vrtHeight : ℕ) : Bool :=
  decide (vrtWidth * vrtHeight < IN_MEMORY_THRESHOLD)

/-- Modelled from the spec: the decision the CLI help text documents
(the in-memory flag: "Force processing raster in memory / not in memory
[default: process in memory if smaller than ... pixels]", lines 293-298) —
the override, when supplied, takes precedence over the threshold rule. -/
def chooseInMemorySpec (in_memory : Option Bool) (vrtWidth vrtHeight : ℕ) : Bool :=
  match in_memory with
  | some b => b
  | none => decide (vrtWidth * vrtHeight < IN_MEMORY_THRESHOLD)

end OptimizeRasters

namespace OptimizeRasterstack

/-- `_calculate_default_transform` from optimize_rasterstack.py lines
99-146: identical to the optimize_rasters.py version except that a missing
(`None`) source CRS is replaced by the target CRS — after the bounds-length
check, before any engine call. -/
def _calculate_default_transform (eng : WarpEngine) (src_crs : Option String)
    (target_crs : String) (width height : ℤ) (boundsArgs : List ℚ) :
    List EngCall × Except String (Affine × ℤ × ℤ) :=
  match boundsArgs with
  | [bw, bs, be, bn] =>
    let crs := src_crs.getD target_crs
    let sw := eng.transformPt crs target_crs bw bs
    let nw := eng.transformPt crs target_crs bw bn
    let se := eng.transformPt crs target_crs be bs
    let ne := eng.transformPt crs target_crs be bn
    let cornerW := max sw.1 nw.1
    let cornerS := max sw.2 se.2
    let cornerE := min se.1 ne.1
    let cornerN := min nw.2 ne.2
    let ct := from_bounds cornerW cornerS cornerE cornerN width height
    let db := eng.transformBounds crs target_crs bw bs be bn
    let dw := ⌈(db.2.2.1 - db.1) / ct.a⌉
    let dh := ⌈(db.2.1 - db.2.2.2) / ct.e⌉
    ([EngCall.transformPts, EngCall.transformBounds],
      Except.ok (from_bounds db.1 db.2.1 db.2.2.1 db.2.2.2 dw dh, dw, dh))
  | _ => ([], Except.error "Bounds must contain 4 values")

end OptimizeRasterstack

/-- C6: `_calculate_default_transform` (both scripts) fails with
`ValueError('Bounds must contain 4 values')` whenever fewer than 4 bound
values are supplied, and the empty call log shows the failure precedes any
coordinate transformation. -/
theorem calculate_default_transform_needs_4_bounds (eng : WarpEngine)
    (src_crs target_crs : String) (srcOpt : Option String) (width height : ℤ)
    (boundsArgs : List ℚ) (h : boundsArgs.length < 4) :
    OptimizeRasters._calculate_default_transform eng src_crs target_crs
        width height boundsArgs
      = ([], Except.error "Bounds must contain 4 values")
    ∧ OptimizeRasterstack._calculate_default_transform eng srcOpt target_crs
        width height boundsArgs
      = ([], Except.error "Bounds must contain 4 values") := by
  match boundsArgs with
  | [] => exact ⟨rfl, rfl⟩
  | [_] => exact ⟨rfl, rfl⟩
  | [_, _] => exact ⟨rfl, rfl⟩
  | [_, _, _] => exact ⟨rfl, rfl⟩
  | _ :: _ :: _ :: _ :: _ => simp only [List.length_cons] at h; omega

/-- Witness for C6: a 3-element bounds list with the identity engine. -/
theorem calculate_default_transform_needs_4_bounds_witness :
    OptimizeRasters._calculate_default_transform
        ⟨fun _ _ x y => (x, y), fun _ _ a b c d => (a, b, c, d)⟩
        "epsg:3577" "epsg:4326" 10 10 [1, 2, 3]
      = ([], Except.error "Bounds must contain 4 values")
    ∧ OptimizeRasterstack._calculate_default_transform
        ⟨fun _ _ x y => (x, y), fun _ _ a b c d => (a, b, c, d)⟩
        none "epsg:4326" 10 10 [1, 2, 3]
      = ([], Except.error "Bounds must contain 4 values") :=
  calculate_default_transform_needs_4_bounds
    ⟨fun _ _ x y => (x, y), fun _ _ a b c d => (a, b, c, d)⟩
    "epsg:3577" "epsg:4326" none 10 10 [1, 2, 3] (by norm_num)

/-- C5 (code_bug evaluation): with the override `--no-in-memory` supplied
and a padded tile of 404x404 pixels (far below the threshold), the source's
line-454 assignment still chooses in-memory processing, while the
documented behavior (the override forces the choice) selects on-disk. -/
theorem chooseInMemory_ignores_override :
    OptimizeRasters.chooseInMemory (some false) 404 404 = true
      ∧ OptimizeRasters.chooseInMemorySpec (some false) 404 404 = false := by
  exact ⟨rfl, rfl⟩

/-! ### Per-tile processing order (conflict check, reads, writes) -/

/-- Python `int(q)`: truncation toward zero. -/
def pyInt (q : ℚ) : ℤ := if 0 ≤ q then ⌊q⌋ else -⌊-q⌋

/-- Python `range(start, stop, step)`: raises
`ValueError('range() arg 3 must not be zero')` when `step = 0`, otherwise
the arithmetic progression of the usual Python length formula. -/
def pyRangeStep (start stop step : ℤ) : Except String (List ℤ) :=
  if step = 0 then Except.error "range() arg 3 must not be zero"
  else if 0 < step then
    Except.ok ((List.range ((stop - start + step - 1).fdiv step).toNat).map
      (fun (k : ℕ) => start + step * (k : ℤ)))
  else
    Except.ok ((List.range ((stop - start + step + 1).fdiv step).toNat).map
      (fun (k : ℕ) => start + step * (k : ℤ)))

/-- Observable per-tile events of the stack pipeline
(optimize_rasterstack.py lines 341-375): one warped read per layer, the
opening of the `.blk` file, and one raw write per sub-block. -/
inductive StackEv
  | readLayer (k : ℕ)
  | openBlockFile
  | writeBlock (row col : ℤ)
deriving DecidableEq

/-- Whether a stack event writes bytes to the tile's block file. -/
def StackEv.isWrite : StackEv → Bool
  | .writeBlock _ _ => true
  | _ => false

/-- Errors the modelled stack tile body can raise. -/
inductive StackErr
  | outputConflict
  | rangeStepZero
deriving DecidableEq

/-- The nested sub-block loop of optimize_rasterstack.py lines 371-375:
for each row the inner `range(0, dst_width, block_width)` is constructed
(raising if the step is zero) and one write is emitted per column. -/
def stackWriteLoop (dstW blockW : ℤ) : List ℤ → List StackEv × Option StackErr
  | [] => ([], none)
  | row :: rest =>
    match pyRangeStep 0 dstW blockW with
    | Except.error _ => ([], some StackErr.rangeStepZero)
    | Except.ok cols =>
      let tail := stackWriteLoop dstW blockW rest
      (cols.map (fun col => StackEv.writeBlock row col) ++ tail.1, tail.2)

/-- The per-tile body of `optimize_rasterstack` (lines 341-375), as the
trace of events it performs before returning or raising: every layer is
read through its warped view (line 353), then the output-conflict check
runs (line 363), then the block file is opened and the sub-block loop
writes (lines 368-375). -/
def stackTileBody (overwrite fileExists : Bool) (nLayers : ℕ)
    (dstW dstH blockW blockH : ℤ) : List StackEv × Option StackErr :=
  let reads := (List.range nLayers).map StackEv.readLayer
  if !overwrite && fileExists then (reads, some StackErr.outputConflict)
  else
    match pyRangeStep 0 dstH blockH with
    | Except.error _ => (reads ++ [StackEv.openBlockFile], some StackErr.rangeStepZero)
    | Except.ok rows =>
      let l := stackWriteLoop dstW blockW rows
      (reads ++ [StackEv.openBlockFile] ++ l.1, l.2)

/-- Observable per-tile events of the single-raster pipeline
(optimize_rasters.py lines 411-521). Constructing the two warped views is
lazy and reads no pixels; the first event is the destination open (line
456-465), then per block window one padded-warp read, one destination
write and one block-file write (lines 496-509), then the final copy. -/
inductive RastEv
  | openDest (inMemory : Bool)
  | openBlockFile
  | readBlock (k : ℕ)
  | writeDest (k : ℕ)
  | writeBlockFile (k : ℕ)
  | copyOutput
deriving DecidableEq

/-- Errors the modelled single-raster tile body can raise. -/
inductive RastErr
  | outputConflict
deriving DecidableEq

/-- The per-tile body of `optimize_rasters` (lines 411-521) as a trace:
the destination raster is opened (using the line-454 in-memory decision),
the output-conflict check runs (line 488) before the block file is opened
and before any block is read or written, and on success the block loop
runs followed by the compressed copy (line 513). -/
def rasterTileBody (overwrite fileExists : Bool) (in_memory : Option Bool)
    (vrtWidth vrtHeight : ℕ) (nBlocks : ℕ) : List RastEv × Option RastErr :=
  let pre := [RastEv.openDest (OptimizeRasters.chooseInMemory in_memory vrtWidth vrtHeight)]
  if !overwrite && fileExists then (pre, some RastErr.outputConflict)
  else
    (pre ++ [RastEv.openBlockFile]
      ++ (List.range nBlocks).flatMap
          (fun k => [RastEv.readBlock k, RastEv.writeDest k, RastEv.writeBlockFile k])
      ++ [RastEv.copyOutput], none)

/-- C3 counterexample: in the stack pipeline with one layer, an existing
output file and no overwrite, the tile body raises the output-conflict
error only AFTER reading the layer's warped pixel data — the claim that no
warped pixel data is read before the error fails. -/
theorem stack_conflict_after_reads_counterexample :
    stackTileBody false true 1 8 8 1 1
      = ([StackEv.readLayer 0], some StackErr.outputConflict)
    ∧ StackEv.readLayer 0 ∈ (stackTileBody false true 1 8 8 1 1).1 := by
  exact ⟨rfl, by rw [show (stackTileBody false true 1 8 8 1 1).1 = [StackEv.readLayer 0] from rfl]; exact List.mem_singleton.mpr rfl⟩

/-- C3 amended: with an existing output file and no overwrite, the
single-raster pipeline raises the conflict before any pixel read or any
write (its trace holds only the destination open), while the stack
pipeline raises it before opening the block file or writing any bytes but
after reading every layer's warped pixels. -/
theorem conflict_raised_before_writes (in_memory : Option Bool)
    (vrtWidth vrtHeight nBlocks nLayers : ℕ) (dstW dstH blockW blockH : ℤ) :
    rasterTileBody false true in_memory vrtWidth vrtHeight nBlocks
        = ([RastEv.openDest (OptimizeRasters.chooseInMemory in_memory vrtWidth vrtHeight)],
            some RastErr.outputConflict)
    ∧ stackTileBody false true nLayers dstW dstH blockW blockH
        = ((List.range nLayers).map StackEv.readLayer, some StackErr.outputConflict) := by
  exact ⟨rfl, rfl⟩

/-! ### C10: sub-block size and the step-zero range -/

lemma pyInt_nonneg (q : ℚ) (h : 0 ≤ q) : 0 ≤ pyInt q := by
  rw [pyInt, if_pos h]
  exact Int.floor_nonneg.mpr h

lemma pyInt_unit_div_eq_zero (r : ℚ) (h1 : 0 < r) (h2 : 1 / 10 < r) :
    pyInt (1 / 10 / r) = 0 := by
  have hnn : (0 : ℚ) ≤ 1 / 10 / r := by positivity
  rw [pyInt, if_pos hnn]
  rw [Int.floor_eq_zero_iff]
  constructor
  · exact hnn
  · exact (div_lt_one h1).mpr h2

lemma pyRangeStep_step_zero (start stop : ℤ) :
    pyRangeStep start stop 0 = Except.error "range() arg 3 must not be zero" := by
  rw [pyRangeStep, if_pos rfl]

lemma pyRangeStep_cons (dstH blockH : ℤ) (hH : 1 ≤ dstH) (hB : 1 ≤ blockH) :
    ∃ r rest, pyRangeStep 0 dstH blockH = Except.ok (r :: rest) := by
  rw [pyRangeStep, if_neg (by omega), if_pos (by omega : (0 : ℤ) < blockH)]
  have hlen : 1 ≤ (dstH - 0 + blockH - 1).fdiv blockH := by
    rw [Int.fdiv_eq_ediv _ (by omega)]
    exact (Int.le_ediv_iff_mul_le (by omega)).mpr (by omega)
  obtain ⟨m, hm⟩ : ∃ m, ((dstH - 0 + blockH - 1).fdiv blockH).toNat = m + 1 :=
    ⟨((dstH - 0 + blockH - 1).fdiv blockH).toNat - 1, by omega⟩
  rw [hm, List.range_succ_eq_map]
  exact ⟨_, _, rfl⟩

lemma stackWriteLoop_blockW_zero (dstW : ℤ) (r : ℤ) (rest : List ℤ) :
    stackWriteLoop dstW 0 (r :: rest) = ([], some StackErr.rangeStepZero) := by
  rw [stackWriteLoop, pyRangeStep_step_zero]

lemma reads_open_no_write (n : ℕ) :
    ((List.range n).map StackEv.readLayer ++ [StackEv.openBlockFile]).all
      (fun ev => !ev.isWrite) = true := by
  rw [List.all_eq_true]
  intro ev hev
  rw [List.mem_append] at hev
  rcases hev with hev | hev
  · obtain ⟨k, _, rfl⟩ := List.mem_map.mp hev
    rfl
  · rw [List.mem_singleton.mp hev]
    rfl

/-- C10: in the stack pipeline, `int(0.1 / resolution)` yields a zero
block width or height whenever the canonical resolution exceeds 0.1
degrees per pixel on one axis, and the sub-block iteration (a Python range
with step 0) then raises instead of writing any sub-block bytes. -/
theorem stack_subblock_step_zero (resX resY : ℚ) (dstW dstH : ℤ) (ow : Bool)
    (nLayers : ℕ) (hx : 0 < resX) (hy : 0 < resY)
    (hcoarse : 1 / 10 < resX ∨ 1 / 10 < resY) (hH : 1 ≤ dstH) :
    (pyInt (1 / 10 / resX) = 0 ∨ pyInt (1 / 10 / resY) = 0)
    ∧ (stackTileBody ow false nLayers dstW dstH
          (pyInt (1 / 10 / resX)) (pyInt (1 / 10 / resY))).2
        = some StackErr.rangeStepZero
    ∧ (stackTileBody ow false nLayers dstW dstH
          (pyInt (1 / 10 / resX)) (pyInt (1 / 10 / resY))).1.all
        (fun ev => !ev.isWrite) = true := by
  have hbW0 : 0 ≤ pyInt (1 / 10 / resX) := pyInt_nonneg _ (by positivity)
  have hbH0 : 0 ≤ pyInt (1 / 10 / resY) := pyInt_nonneg _ (by positivity)
  have hzero : pyInt (1 / 10 / resX) = 0 ∨ pyInt (1 / 10 / resY) = 0 := by
    rcases hcoarse with h | h
    · exact Or.inl (pyInt_unit_div_eq_zero resX hx h)
    · exact Or.inr (pyInt_unit_div_eq_zero resY hy h)
  refine ⟨hzero, ?_⟩
  have hbody : stackTileBody ow false nLayers dstW dstH
      (pyInt (1 / 10 / resX)) (pyInt (1 / 10 / resY))
      = ((List.range nLayers).map StackEv.readLayer ++ [StackEv.openBlockFile],
          some StackErr.rangeStepZero) := by
    by_cases hbH : pyInt (1 / 10 / resY) = 0
    · rw [stackTileBody]
      simp only [Bool.and_false, Bool.false_eq_true, if_false]
      rw [hbH, pyRangeStep_step_zero]
    · have hbH1 : 1 ≤ pyInt (1 / 10 / resY) := by omega
      have hbW : pyInt (1 / 10 / resX) = 0 := by
        rcases hzero with h | h
        · exact h
        · exact absurd h hbH
      obtain ⟨r, rest, hrows⟩ := pyRangeStep_cons dstH (pyInt (1 / 10 / resY)) hH hbH1
      rw [stackTileBody]
      simp only [Bool.and_false, Bool.false_eq_true, if_false, hbW, hrows]
      rw [stackWriteLoop_blockW_zero]
      simp
  rw [hbody]
  exact ⟨rfl, reads_open_no_write nLayers⟩

/-- Witness for C10: a canonical resolution of 0.2 degrees per pixel on
both axes (greater than 0.1), a 5x5 destination and two layers. -/
theorem stack_subblock_step_zero_witness :
    (pyInt (1 / 10 / (1 / 5 : ℚ)) = 0 ∨ pyInt (1 / 10 / (1 / 5 : ℚ)) = 0)
    ∧ (stackTileBody true false 2 5 5
          (pyInt (1 / 10 / (1 / 5 : ℚ))) (pyInt (1 / 10 / (1 / 5 : ℚ)))).2
        = some StackErr.rangeStepZero
    ∧ (stackTileBody true false 2 5 5
          (pyInt (1 / 10 / (1 / 5 : ℚ))) (pyInt (1 / 10 / (1 / 5 : ℚ)))).1.all
        (fun ev => !ev.isWrite) = true :=
  stack_subblock_step_zero (1 / 5) (1 / 5) 5 5 true 2 (by norm_num) (by norm_num)
    (Or.inl (by norm_num)) (by norm_num)

end FlintData
